import Mathlib

/-!
# Verification of the suno-archive synchronization engine

Shallow embedding of the core of the repository:
`DownloadManager` (fetchLibrary / retryFetch / downloadItem / worker),
the `/run` route's delta computation, and the legacy JSON migration.

Network and filesystem effects are modelled by oracle functions
(`pages`, `fetch`, `fileExists`), and the JavaScript control flow is
translated statement by statement.
-/

namespace SunoArchive

/-- One remote library entry. Only the fields the modelled code reads are
kept: `id`, optional `title`, optional `audio_url`. A `none`/empty value
models a JavaScript falsy field. -/
structure Item where
  id : String
  title : Option String := none
  audio_url : Option String := none
  deriving Repr, DecidableEq

/-- JavaScript truthiness of an optional string field: `undefined`/`null`
and the empty string are falsy. -/
def truthyStr (s : Option String) : Bool :=
  match s with
  | none => false
  | some v => !v.isEmpty

/-! ## fetchLibrary (src/unnamed/part_000, lines 33–112) -/

/-- The loop guard `page < maxPages` where
`maxPages = this.limit ? Math.ceil(this.limit / 20) : Infinity`.
A `limit` of 0 is falsy in JavaScript, hence no cap. -/
def pageWithinCap (limit : Option Nat) (page : Nat) : Bool :=
  match limit with
  | none => true
  | some l => if l == 0 then true else decide (page < (l + 19) / 20)

/-- The stop check `this.limit && allItems.length >= this.limit`. -/
def limitReached (limit : Option Nat) (len : Nat) : Bool :=
  match limit with
  | none => false
  | some l => if l == 0 then false else decide (l ≤ len)

/-- Count of new items on a page:
`clips.filter(c => !this.existingIds.has(c.id)).length`. -/
def newClipsOnPage (known : List String) (clips : List Item) : Nat :=
  (clips.filter (fun c => !(known.contains c.id))).length

/-- The pagination loop of `fetchLibrary`. The remote listing is the list
`pages`; fetching a page past the end of the list returns zero items.
Returns the accumulated items and the number of page fetches performed.
Accumulators: `acc` = `allItems`, `page` = page counter, `consec` =
`consecutiveExistingPages`, `fetched` = number of HTTP page requests so
far. The early-stop threshold is the constant 2. -/
def fetchLoop (fullSync : Bool) (known : List String) (limit : Option Nat) :
    List (List Item) → List Item → Nat → Nat → Nat → List Item × Nat
  | [], acc, page, _, fetched =>
      if pageWithinCap limit page then (acc, fetched + 1) else (acc, fetched)
  | clips :: rest, acc, page, consec, fetched =>
      if pageWithinCap limit page then
        if clips.isEmpty then (acc, fetched + 1)
        else
          let acc2 := acc ++ clips
          let nc := newClipsOnPage known clips
          let smart := !fullSync && !known.isEmpty
          let consec2 := if smart then (if nc == 0 then consec + 1 else 0) else consec
          let earlyStop := smart && (nc == 0) && decide (2 ≤ consec2)
          if earlyStop || limitReached limit acc2.length then (acc2, fetched + 1)
          else fetchLoop fullSync known limit rest acc2 (page + 1) consec2 (fetched + 1)
      else (acc, fetched)

/-- Entry point of the lister: run the pagination loop from page 0 with
empty accumulators. -/
def fetchLibrary (fullSync : Bool) (known : List String) (limit : Option Nat)
    (pages : List (List Item)) : List Item × Nat :=
  fetchLoop fullSync known limit pages [] 0 0 0

/-! ## Response shape sniffing (src/unnamed/part_000, line 67) -/

/-- A per-page JSON response; each candidate field is either absent
(`none`) or holds an array. -/
structure PageResponse where
  clips : Option (List Item) := none
  songs : Option (List Item) := none
  data : Option (List Item) := none
  items : Option (List Item) := none
  deriving Repr, DecidableEq

/-- Shape sniffing
`data.clips || data.songs || data.data || data.items || []`.
In JavaScript an array — even an empty one — is truthy, so `||` selects
the first field that is present, regardless of its emptiness. -/
def selectClips (r : PageResponse) : List Item :=
  match r.clips with
  | some v => v
  | none =>
    match r.songs with
    | some v => v
    | none =>
      match r.data with
      | some v => v
      | none =>
        match r.items with
        | some v => v
        | none => []

/-! ## Delta computation (src/routes/archive.js, lines 77–83) -/

/-- Candidate computation of the `/run` route:
`let newItems = lib.items.filter(i => !oldIds.has(i.id));
if (limit && limit > 0) newItems = newItems.slice(0, limit);`. -/
def computeDelta (oldIds : List String) (items : List Item)
    (limit : Option Nat) : List Item :=
  let newItems := items.filter (fun i => !(oldIds.contains i.id))
  match limit with
  | some l => if 0 < l then newItems.take l else newItems
  | none => newItems

/-! ## retryFetch (src/unnamed/part_000, lines 114–127) -/

/-- An HTTP response as observed by the modelled code: `ok` flag and
numeric status. -/
structure HttpResponse where
  ok : Bool
  status : Nat
  deriving Repr, DecidableEq

/-- Backoff delay before the next attempt:
`Math.min(1000 * Math.pow(2, attempt), 10000)`. -/
def backoffDelay (attempt : Nat) : Nat :=
  min (1000 * 2 ^ attempt) 10000

/-- One modelled `fetch(url, options)` call indexed by attempt number:
either a received response (any status) or a transport rejection with a
message. -/
def FetchOracle : Type := Nat → Except String HttpResponse

/-- Recursive body of `retryFetch(url, options, attempt)`. Attempts are
numbered from 1. Returns the final outcome together with the list of
backoff delays slept between attempts. -/
def retryFetchGo (maxRetries : Nat) (oracle : FetchOracle) (attempt : Nat) :
    Except String HttpResponse × List Nat :=
  match oracle attempt with
  | .ok r => (.ok r, [])
  | .error e =>
    if h : attempt < maxRetries then
      let next := retryFetchGo maxRetries oracle (attempt + 1)
      (next.1, backoffDelay attempt :: next.2)
    else
      (.error e, [])
termination_by maxRetries - attempt
decreasing_by omega

/-- Public entry `retryFetch(url, options)`: starts at attempt 1. -/
def retryFetch (maxRetries : Nat) (oracle : FetchOracle) :
    Except String HttpResponse × List Nat :=
  retryFetchGo maxRetries oracle 1

/-! ## Filenames (src/unnamed/part_000, lines 136–146) -/

/-- Characters replaced by the regex `[/\\?%*:|"<>]`. -/
def invalidChars : List Char :=
  ['/', '\\', '?', '%', '*', ':', '|', '"', '<', '>']

/-- Replacement of each invalid path character by a dash. -/
def replaceInvalid (s : List Char) : List Char :=
  s.map (fun c => if invalidChars.contains c then '-' else c)

/-- Collapse of each whitespace run into a single space, the effect of
`.replace(/\s+/g, ' ')`. -/
def collapseWs (s : List Char) : List Char :=
  s.foldr
    (fun c acc =>
      if c.isWhitespace then
        match acc with
        | ' ' :: _ => acc
        | _ => ' ' :: acc
      else c :: acc)
    []

/-- Safe title derivation: fall back to `'untitled'` when the title is
falsy, replace invalid characters, normalize whitespace, trim, and take
the first 100 characters. -/
def safeTitle (title : Option String) : String :=
  let t : String :=
    match title with
    | none => "untitled"
    | some s => if s.isEmpty then "untitled" else s
  (String.mk (collapseWs (replaceInvalid t.data))).trim.take 100

/-- Filename base `${safeTitle} - ${item.id}`. -/
def fileBase (item : Item) : String :=
  safeTitle item.title ++ " - " ++ item.id

/-- Per-format filename `${fileBase}.${fmt}`. -/
def fileName (item : Item) (fmt : String) : String :=
  fileBase item ++ "." ++ fmt

/-- Full path `path.join(dlDir, fileName)`. -/
def filePath (dlDir : String) (item : Item) (fmt : String) : String :=
  dlDir ++ "/" ++ fileName item fmt

/-- Requested format list:
`this.format === 'both' ? ['mp3', 'wav'] : [this.format]`. -/
def formatsOf (format : String) : List String :=
  if format == "both" then ["mp3", "wav"] else [format]

/-! ## downloadItem (src/unnamed/part_000, lines 129–227) -/

/-- Outcome of one per-format media fetch, after `retryFetch`: a
successful response whose body was written (`ok`), a received non-ok
response with its status (`httpErr`), or a transport error after retry
exhaustion (`transportErr`). -/
inductive FetchResult where
  | ok : FetchResult
  | httpErr : Nat → FetchResult
  | transportErr : String → FetchResult
  deriving Repr, DecidableEq

/-- Truth of a per-format success. -/
def FetchResult.isOk : FetchResult → Bool
  | .ok => true
  | _ => false

/-- Uppercasing of an ASCII format name, the effect of
`fmt.toUpperCase()`. -/
def toUpperStr (s : String) : String :=
  String.mk (s.data.map Char.toUpper)

/-- Message pushed into `formatErrors` for a failing format, `none` on
success. A 4xx status takes the soft-error branch
(`${fmt.toUpperCase()} not available (HTTP ${status})`); any other non-ok
status is thrown as `HTTP ${status} for ${fmt}` and caught as
`${fmt}: ${err.message}`; a transport error is caught the same way. -/
def formatErrorMsg (fmt : String) : FetchResult → Option String
  | .ok => none
  | .httpErr s =>
      if 400 ≤ s ∧ s < 500 then
        some (toUpperStr fmt ++ " not available (HTTP " ++ toString s ++ ")")
      else
        some (fmt ++ ": HTTP " ++ toString s ++ " for " ++ fmt)
  | .transportErr m => some (fmt ++ ": " ++ m)

/-- Media fetching per item: one `FetchResult` per format name. -/
def MediaOracle : Type := String → FetchResult

/-- Per-format download loop of `downloadItem` (lines 169–210): folds
over the requested formats accumulating `successCount` and
`formatErrors`. -/
def downloadFormats (fetch : MediaOracle) (formats : List String) :
    Nat × List String :=
  formats.foldl
    (fun acc fmt =>
      match formatErrorMsg fmt (fetch fmt) with
      | none => (acc.1 + 1, acc.2)
      | some m => (acc.1, acc.2 ++ [m]))
    (0, [])

/-- Progress counters of the manager. -/
structure Progress where
  total : Nat := 0
  downloaded : Nat := 0
  failed : Nat := 0
  skipped : Nat := 0
  deriving Repr, DecidableEq

/-- One entry of `this.errors`: `{ id, error }`. -/
structure ErrEntry where
  id : String
  error : String
  deriving Repr, DecidableEq

/-- Mutable state of the manager touched by `downloadItem`: the progress
counters and the error list. -/
structure DMState where
  progress : Progress := {}
  errors : List ErrEntry := []
  deriving Repr, DecidableEq

/-- Existence oracle for `fs.access` checks, by full path. -/
def FsOracle : Type := String → Bool

/-- Verification pre-check (lines 149–167): true iff every target file
for the requested formats exists. -/
def allFilesExist (fileExists : FsOracle) (dlDir : String) (item : Item)
    (formats : List String) : Bool :=
  formats.all (fun fmt => fileExists (filePath dlDir item fmt))

/-- Translation of `downloadItem(item, dlDir)`. Returns the boolean
result together with the updated state.
Paths, in source order: falsy `audio_url` increments `skipped` and
returns false; with `verifyFiles` on and every target file present,
`skipped` is incremented and true returned with no fetch; otherwise the
per-format loop runs, then either `downloaded` is incremented (some
format succeeded) or `failed` is incremented and one error entry with the
joined per-format messages is appended. -/
def downloadItem (format : String) (verifyFiles : Bool)
    (fileExists : FsOracle) (fetch : MediaOracle) (dlDir : String)
    (item : Item) (st : DMState) : Bool × DMState :=
  if !truthyStr item.audio_url then
    (false, { st with progress := { st.progress with skipped := st.progress.skipped + 1 } })
  else
    let formats := formatsOf format
    if verifyFiles && allFilesExist fileExists dlDir item formats then
      (true, { st with progress := { st.progress with skipped := st.progress.skipped + 1 } })
    else
      let res := downloadFormats fetch formats
      if 0 < res.1 then
        (true, { st with progress := { st.progress with downloaded := st.progress.downloaded + 1 } })
      else
        (false,
          { st with
              progress := { st.progress with failed := st.progress.failed + 1 },
              errors := st.errors ++ [⟨item.id, String.intercalate "; " res.2⟩] })

/-! ## Catalog and worker (src/utils part of part_000, lines 240–257) -/

/-- The per-user catalog as an association list keyed by item id.
`INSERT OR REPLACE` (last write wins per id) removes any row with the
same id and appends the new row. -/
def dbInsert (db : List (String × Item)) (item : Item) :
    List (String × Item) :=
  db.filter (fun p => !(p.1 == item.id)) ++ [(item.id, item)]

/-- Snapshot of all catalog ids, modelling `db.getAllIds()`. -/
def dbIds (db : List (String × Item)) : List String :=
  db.map Prod.fst

/-- One worker iteration for one claimed item: run `downloadItem`, and on
a true result (with a database attached) insert the item into the catalog
and add its id to the in-memory known-id set. -/
def workerStep (format : String) (verifyFiles : Bool)
    (fileExists : FsOracle) (fetch : MediaOracle) (dlDir : String)
    (dbOn : Bool) (item : Item)
    (s : DMState × List (String × Item) × List String) :
    DMState × List (String × Item) × List String :=
  let r := downloadItem format verifyFiles fileExists fetch dlDir item s.1
  if r.1 && dbOn then
    (r.2, dbInsert s.2.1 item, s.2.2 ++ [item.id])
  else
    (r.2, s.2.1, s.2.2)

/-- Aggregate effect of `downloadBatch` on the manager state: each queued
item is claimed by exactly one worker and processed once; the counter
updates therefore compose sequentially over the queue. -/
def processBatch (format : String) (verifyFiles : Bool)
    (fileExists : FsOracle) (fetch : MediaOracle) (dlDir : String)
    (items : List Item) (st : DMState) : DMState :=
  items.foldl
    (fun s i => (downloadItem format verifyFiles fileExists fetch dlDir i s).2) st

/-! ## Legacy migration (src/utils/migrateToDb.js, lines 8–45) -/

/-- Translation of `migrateJsonToDb`. The legacy file read is modelled by
`fileContent`: `none` is the `ENOENT` branch (file absent), which returns
count 0 without opening or writing the catalog; `some clips` inserts all
clips and returns the resulting catalog row count. -/
def migrateJsonToDb (fileContent : Option (List Item))
    (db : List (String × Item)) : Nat × List (String × Item) :=
  match fileContent with
  | none => (0, db)
  | some clips =>
      let db2 := clips.foldl dbInsert db
      (db2.length, db2)

/-! ## Spec-side definitions for refinement claims -/

/-- Full-sync pagination as the spec words it (spec §4.2 step 4): fetch
pages until a page returns zero items, or the page cap
`ceil(limit / pageSize)` is reached, or the accumulated item count
reaches `limit`; no early-stop counter exists. Used only to compare with
`fetchLoop` under `fullSync = true`. -/
def fullScanSpec (limit : Option Nat) :
    List (List Item) → List Item → Nat → Nat → List Item × Nat
  | [], acc, page, fetched =>
      if pageWithinCap limit page then (acc, fetched + 1) else (acc, fetched)
  | clips :: rest, acc, page, fetched =>
      if pageWithinCap limit page then
        if clips.isEmpty then (acc, fetched + 1)
        else
          let acc2 := acc ++ clips
          if limitReached limit acc2.length then (acc2, fetched + 1)
          else fullScanSpec limit rest acc2 (page + 1) (fetched + 1)
      else (acc, fetched)

/-- Delta as the spec words it: the items of `R` whose id is not in `K`,
then truncated to the first `limit` elements when a positive limit is
supplied. Used only to compare with `computeDelta`. -/
def specDelta (oldIds : List String) (items : List Item)
    (limit : Option Nat) : List Item :=
  let delta := items.filter (fun i => decide (i.id ∉ oldIds))
  match limit with
  | some l => if 0 < l then delta.take l else delta
  | none => delta

/-! ## Helper lemmas -/

/-- Sum of the three outcome counters. -/
def sumCounters (st : DMState) : Nat :=
  st.progress.downloaded + st.progress.failed + st.progress.skipped

/-- Concrete items used by witnesses. -/
def itemA : Item := ⟨"a", none, none⟩

def itemB : Item := ⟨"b", none, none⟩

def itemU : Item := ⟨"id1", some "t", some "u"⟩

theorem pageWithinCap_none (page : Nat) : pageWithinCap none page = true := rfl

theorem limitReached_none (len : Nat) : limitReached none len = false := rfl

theorem contains_eq_decide_mem (K : List String) (a : String) :
    K.contains a = decide (a ∈ K) := by
  by_cases h : a ∈ K <;> simp [h, List.elem_iff, List.contains]

theorem newClips_zero_of_allKnown (known : List String) (clips : List Item)
    (h : ∀ c ∈ clips, known.contains c.id = true) :
    newClipsOnPage known clips = 0 := by
  simp only [newClipsOnPage, List.length_eq_zero, List.filter_eq_nil_iff]
  intro c hc
  have hb := h c hc
  simp [contains_eq_decide_mem] at hb
  simp [hb]

theorem fullSync_loop_eq (known : List String) (limit : Option Nat) :
    ∀ (pages : List (List Item)) (acc : List Item) (page consec fetched : Nat),
      fetchLoop true known limit pages acc page consec fetched =
        fullScanSpec limit pages acc page fetched := by
  intro pages
  induction pages with
  | nil => intro acc page consec fetched; simp [fetchLoop, fullScanSpec]
  | cons clips rest ih =>
    intro acc page consec fetched
    simp only [fetchLoop, fullScanSpec, Bool.not_true, Bool.false_and,
      Bool.false_or, ih]

theorem retryFetchGo_ok (maxRetries : Nat) (oracle : FetchOracle)
    (attempt : Nat) (r : HttpResponse) (h : oracle attempt = .ok r) :
    retryFetchGo maxRetries oracle attempt = (.ok r, []) := by
  rw [retryFetchGo, h]

theorem retryFetchGo_allFail_aux (maxRetries : Nat) (oracle : FetchOracle)
    (e : Nat → String) (ho : ∀ j, oracle j = .error (e j)) :
    ∀ (k attempt : Nat), maxRetries - attempt ≤ k →
      retryFetchGo maxRetries oracle attempt =
        (.error (e (max attempt maxRetries)),
         (List.range' attempt (maxRetries - attempt)).map backoffDelay) := by
  intro k
  induction k with
  | zero =>
    intro attempt hle
    rw [retryFetchGo, ho attempt]
    dsimp only
    rw [dif_neg (by omega)]
    have h1 : max attempt maxRetries = attempt := by omega
    have h2 : maxRetries - attempt = 0 := by omega
    simp [h1, h2]
  | succ k ih =>
    intro attempt hle
    rw [retryFetchGo, ho attempt]
    dsimp only
    by_cases h : attempt < maxRetries
    · rw [dif_pos h]
      have hrec := ih (attempt + 1) (by omega)
      rw [hrec]
      have h1 : max (attempt + 1) maxRetries = max attempt maxRetries := by omega
      have h2 : maxRetries - attempt = (maxRetries - (attempt + 1)) + 1 := by omega
      rw [h1, h2]
      rfl
    · rw [dif_neg h]
      have h1 : max attempt maxRetries = attempt := by omega
      have h2 : maxRetries - attempt = 0 := by omega
      simp [h1, h2]

theorem retryFetchGo_length_aux (maxRetries : Nat) (oracle : FetchOracle) :
    ∀ (k attempt : Nat), maxRetries - attempt ≤ k →
      (retryFetchGo maxRetries oracle attempt).2.length + attempt ≤
        max attempt maxRetries := by
  intro k
  induction k with
  | zero =>
    intro attempt hle
    rw [retryFetchGo]
    cases hval : oracle attempt with
    | ok r => simp
    | error e =>
      dsimp only
      rw [dif_neg (by omega)]
      simp
  | succ k ih =>
    intro attempt hle
    rw [retryFetchGo]
    cases hval : oracle attempt with
    | ok r => simp
    | error e =>
      dsimp only
      by_cases h : attempt < maxRetries
      · rw [dif_pos h]
        have hrec := ih (attempt + 1) (by omega)
        simp only [List.length_cons]
        omega
      · rw [dif_neg h]
        simp

theorem formatErrorMsg_none_iff (fmt : String) (r : FetchResult) :
    formatErrorMsg fmt r = none ↔ r.isOk = true := by
  cases r with
  | ok => simp [formatErrorMsg, FetchResult.isOk]
  | httpErr s =>
    simp only [formatErrorMsg, FetchResult.isOk]
    split <;> simp
  | transportErr m => simp [formatErrorMsg, FetchResult.isOk]

theorem downloadFormats_go (fetch : MediaOracle) :
    ∀ (formats : List String) (n : Nat) (es : List String),
      formats.foldl
        (fun acc fmt =>
          match formatErrorMsg fmt (fetch fmt) with
          | none => (acc.1 + 1, acc.2)
          | some m => (acc.1, acc.2 ++ [m])) (n, es) =
      (n + (formats.filter (fun f => (fetch f).isOk)).length,
       es ++ formats.filterMap (fun f => formatErrorMsg f (fetch f))) := by
  intro formats
  induction formats with
  | nil => intro n es; simp
  | cons f fs ih =>
    intro n es
    simp only [List.foldl_cons, List.filter_cons, List.filterMap_cons]
    cases hr : formatErrorMsg f (fetch f) with
    | none =>
      have hok : (fetch f).isOk = true := (formatErrorMsg_none_iff f (fetch f)).mp hr
      rw [hok]
      simp only [if_true]
      rw [ih]
      simp only [Prod.mk.injEq, List.length_cons]
      exact ⟨by omega, trivial⟩
    | some m =>
      have hok : (fetch f).isOk = false := by
        cases h : (fetch f).isOk with
        | false => rfl
        | true =>
          have := (formatErrorMsg_none_iff f (fetch f)).mpr h
          rw [this] at hr
          exact absurd hr (by simp)
      rw [hok]
      simp only [Bool.false_eq_true, if_false]
      rw [ih]
      simp [List.append_assoc]

theorem downloadFormats_eq (fetch : MediaOracle) (formats : List String) :
    downloadFormats fetch formats =
      ((formats.filter (fun f => (fetch f).isOk)).length,
       formats.filterMap (fun f => formatErrorMsg f (fetch f))) := by
  have h := downloadFormats_go fetch formats 0 []
  simpa [downloadFormats] using h

/-! ## Claim theorems -/

/-- C1: for every known-id set `K` and every item sequence `R` returned by
the lister, the candidate set handed to the downloader is exactly the
items of `R` whose id is not in `K`, independent of how `R` was split
across pages, and a positive `limit` truncates the delta to its first
`limit` elements. -/
theorem delta_is_set_difference (K : List String) (R : List Item)
    (limit : Option Nat) :
    computeDelta K R limit = specDelta K R limit ∧
    (∀ i : Item, i ∈ computeDelta K R none ↔ i ∈ R ∧ i.id ∉ K) ∧
    (∀ l : Nat, 0 < l →
      computeDelta K R (some l) = (computeDelta K R none).take l) ∧
    (∀ pages : List (List Item), pages.flatten = R →
      computeDelta K pages.flatten limit = computeDelta K R limit) := by
  refine ⟨?_, ?_, ?_, ?_⟩
  · have hp : ∀ i : Item, (!(K.contains i.id)) = decide (i.id ∉ K) := by
      intro i
      simp [contains_eq_decide_mem]
    simp [computeDelta, specDelta, hp]
  · intro i
    simp [computeDelta, List.mem_filter, contains_eq_decide_mem]
  · intro l hl
    simp [computeDelta, hl]
  · intro pages hj
    rw [hj]

/-- Closed witness for C1 at a concrete catalog and remote listing. -/
theorem delta_is_set_difference_witness :
    computeDelta ["a"] [itemA, itemB] (some 1) =
      (computeDelta ["a"] [itemA, itemB] none).take 1 ∧
    computeDelta ["a"] [[itemA], [itemB]].flatten (some 1) =
      computeDelta ["a"] [itemA, itemB] (some 1) := by
  refine ⟨(delta_is_set_difference ["a"] [itemA, itemB] (some 1)).2.2.1 1 (by decide), ?_⟩
  exact (delta_is_set_difference ["a"] [itemA, itemB] (some 1)).2.2.2
    [[itemA], [itemB]] rfl

/-- C3: with `fullSync = true` the lister never applies the early-stop
heuristic: its result coincides with the spec's full scan (fetch until an
empty page, the page cap, or the accumulated limit) and is independent of
the known-id set. -/
theorem full_sync_bypass (known known2 : List String) (limit : Option Nat)
    (pages : List (List Item)) :
    fetchLibrary true known limit pages = fullScanSpec limit pages [] 0 0 ∧
    fetchLibrary true known limit pages = fetchLibrary true known2 limit pages := by
  constructor
  · exact fullSync_loop_eq known limit pages [] 0 0 0
  · rw [fetchLibrary, fetchLibrary, fullSync_loop_eq, fullSync_loop_eq]

/-- C2: with `fullSync = false` and a non-empty known-id set, if the two
pages after the first fetched page contain only known ids, `fetchLibrary`
performs at most 3 page fetches, returns exactly the concatenation of the
pages it fetched, and a page containing at least one unknown id resets
the consecutive-all-known counter to zero. -/
theorem early_stop_bounds_pages (known : List String)
    (p0 p1 p2 : List Item) (rest : List (List Item))
    (hk : known ≠ [])
    (h1 : ∀ c ∈ p1, known.contains c.id = true)
    (h2 : ∀ c ∈ p2, known.contains c.id = true) :
    (fetchLibrary false known none (p0 :: p1 :: p2 :: rest)).2 ≤ 3 ∧
    (fetchLibrary false known none (p0 :: p1 :: p2 :: rest)).1 =
      ([p0, p1, p2].take
        (fetchLibrary false known none (p0 :: p1 :: p2 :: rest)).2).flatten ∧
    (∀ (clips : List Item) (rest2 : List (List Item)) (acc : List Item)
        (page consec fetched : Nat), clips ≠ [] →
        0 < newClipsOnPage known clips →
        fetchLoop false known none (clips :: rest2) acc page consec fetched =
          fetchLoop false known none rest2 (acc ++ clips) (page + 1) 0
            (fetched + 1)) := by
  have hke : known.isEmpty = false := by
    cases known with
    | nil => exact absurd rfl hk
    | cons a l => rfl
  have hstepnew : ∀ (clips : List Item) (rest2 : List (List Item))
      (acc : List Item) (page consec fetched : Nat), clips ≠ [] →
      0 < newClipsOnPage known clips →
      fetchLoop false known none (clips :: rest2) acc page consec fetched =
        fetchLoop false known none rest2 (acc ++ clips) (page + 1) 0
          (fetched + 1) := by
    intro clips rest2 acc page consec fetched hne hnc
    have hie : clips.isEmpty = false := by
      cases clips with
      | nil => exact absurd rfl hne
      | cons a l => rfl
    have hb : (newClipsOnPage known clips == 0) = false := by
      simp only [beq_eq_false_iff_ne, ne_eq]
      omega
    simp [fetchLoop, hie, hke, hb, pageWithinCap_none, limitReached_none]
  have hn1 : p1 ≠ [] → newClipsOnPage known p1 = 0 := fun _ =>
    newClips_zero_of_allKnown known p1 h1
  have hn2 : p2 ≠ [] → newClipsOnPage known p2 = 0 := fun _ =>
    newClips_zero_of_allKnown known p2 h2
  have hmain : (fetchLibrary false known none (p0 :: p1 :: p2 :: rest)).2 ≤ 3 ∧
      (fetchLibrary false known none (p0 :: p1 :: p2 :: rest)).1 =
        ([p0, p1, p2].take
          (fetchLibrary false known none (p0 :: p1 :: p2 :: rest)).2).flatten := by
    by_cases hp0 : p0 = []
    · subst hp0
      have hv : fetchLibrary false known none ([] :: p1 :: p2 :: rest) = ([], 1) := by
        simp [fetchLibrary, fetchLoop, pageWithinCap_none]
      rw [hv]
      simp
    · have hie0 : p0.isEmpty = false := by
        cases p0 with
        | nil => exact absurd rfl hp0
        | cons a l => rfl
      by_cases hn0 : newClipsOnPage known p0 = 0
      · by_cases hp1 : p1 = []
        · subst hp1
          have hv : fetchLibrary false known none (p0 :: [] :: p2 :: rest) = (p0, 2) := by
            simp [fetchLibrary, fetchLoop, hie0, hke, hn0, pageWithinCap_none, limitReached_none]
          rw [hv]
          simp
        · have hie1 : p1.isEmpty = false := by
            cases p1 with
            | nil => exact absurd rfl hp1
            | cons a l => rfl
          have hv : fetchLibrary false known none (p0 :: p1 :: p2 :: rest) =
              (p0 ++ p1, 2) := by
            simp [fetchLibrary, fetchLoop, hie0, hie1, hke, hn0, hn1 hp1, pageWithinCap_none, limitReached_none]
          rw [hv]
          simp
      · have hb0 : 0 < newClipsOnPage known p0 := by omega
        have hs0 := hstepnew p0 (p1 :: p2 :: rest) [] 0 0 0 hp0 hb0
        by_cases hp1 : p1 = []
        · subst hp1
          have hv : fetchLibrary false known none (p0 :: [] :: p2 :: rest) = (p0, 2) := by
            rw [fetchLibrary, hs0]
            simp [fetchLoop, pageWithinCap_none, limitReached_none]
          rw [hv]
          simp
        · have hie1 : p1.isEmpty = false := by
            cases p1 with
            | nil => exact absurd rfl hp1
            | cons a l => rfl
          by_cases hp2 : p2 = []
          · subst hp2
            have hv : fetchLibrary false known none (p0 :: p1 :: [] :: rest) =
                (p0 ++ p1, 3) := by
              rw [fetchLibrary, hs0]
              simp [fetchLoop, hie1, hke, hn1 hp1, pageWithinCap_none, limitReached_none]
            rw [hv]
            simp
          · have hie2 : p2.isEmpty = false := by
              cases p2 with
              | nil => exact absurd rfl hp2
              | cons a l => rfl
            have hv : fetchLibrary false known none (p0 :: p1 :: p2 :: rest) =
                (p0 ++ p1 ++ p2, 3) := by
              rw [fetchLibrary, hs0]
              simp [fetchLoop, hie1, hie2, hke, hn1 hp1, hn2 hp2, pageWithinCap_none, limitReached_none]
            rw [hv]
            simp
  exact ⟨hmain.1, hmain.2, hstepnew⟩

/-- Closed witness for C2: one page of new content followed by two
all-known pages stops after exactly 3 page fetches. -/
theorem early_stop_bounds_pages_witness :
    (fetchLibrary false ["a"] none [[itemB], [itemA], [itemA], [itemB]]).2 ≤ 3 := by
  exact (early_stop_bounds_pages ["a"] [itemB] [itemA] [itemA] [[itemB]]
    (by decide) (by decide) (by decide)).1

/-- C6: `retryFetch` retries only when the fetch call rejects: a received
response is returned immediately with no further attempts or delays, even
with an error status; an all-failing transport makes attempts 1 up to
`maxRetries` with delay `min(1000 * 2^attempt, 10000)` between attempt
`attempt` and the next, and propagates the last error; the number of
attempts (delays plus one) never exceeds `maxRetries`. -/
theorem retry_on_transport_failure_only (maxRetries : Nat)
    (oracle : FetchOracle) :
    (∀ (attempt : Nat) (r : HttpResponse), oracle attempt = .ok r →
      retryFetchGo maxRetries oracle attempt = (.ok r, [])) ∧
    (∀ e : Nat → String, (∀ j, oracle j = .error (e j)) →
      retryFetch maxRetries oracle =
        (.error (e (max 1 maxRetries)),
         (List.range' 1 (maxRetries - 1)).map backoffDelay)) ∧
    ((retryFetch maxRetries oracle).2.length + 1 ≤ max 1 maxRetries) ∧
    (∀ a : Nat, backoffDelay a = min (1000 * 2 ^ a) 10000) := by
  refine ⟨?_, ?_, ?_, fun a => rfl⟩
  · intro attempt r h
    exact retryFetchGo_ok maxRetries oracle attempt r h
  · intro e ho
    exact retryFetchGo_allFail_aux maxRetries oracle e ho (maxRetries - 1) 1
      (by omega)
  · exact retryFetchGo_length_aux maxRetries oracle (maxRetries - 1) 1 (by omega)

/-- Closed witness for C6: with `maxRetries = 3` and a transport that
always rejects, three attempts are made with delays 2000 and 4000 ms and
the third attempt's error is propagated. -/
theorem retry_on_transport_failure_only_witness :
    retryFetch 3 (fun j => Except.error (toString j)) =
      (Except.error "3", [2000, 4000]) := by
  have h := (retry_on_transport_failure_only 3
    (fun j => Except.error (toString j))).2.1 (fun j => toString j)
    (fun j => rfl)
  rw [h]
  rfl

/-- Oracle of the C5 partial-success scenario: the wav format receives
HTTP 403, any other format succeeds. -/
def bothScenarioFetch : MediaOracle :=
  fun f => if f == "wav" then FetchResult.httpErr 403 else FetchResult.ok

/-- C5: on the download path, `downloaded` is incremented exactly when at
least one requested format succeeds, `failed` exactly when every
requested format fails, in which case exactly one error entry with the
item id and the concatenated per-format messages is appended; a 4xx on
the lossless format with a successful primary (format "both") leaves the
item downloaded with exactly one soft-error record. -/
theorem format_success_accounting (format : String) (verifyFiles : Bool)
    (fileExists : FsOracle) (fetch : MediaOracle) (dlDir : String)
    (item : Item) (st : DMState)
    (hurl : truthyStr item.audio_url = true)
    (hnv : (verifyFiles &&
      allFilesExist fileExists dlDir item (formatsOf format)) = false) :
    (downloadItem format verifyFiles fileExists fetch dlDir item st).2.progress.downloaded =
      st.progress.downloaded +
        (if (formatsOf format).any (fun f => (fetch f).isOk) then 1 else 0) ∧
    (downloadItem format verifyFiles fileExists fetch dlDir item st).2.progress.failed =
      st.progress.failed +
        (if (formatsOf format).all (fun f => !(fetch f).isOk) then 1 else 0) ∧
    (downloadItem format verifyFiles fileExists fetch dlDir item st).2.errors =
      (if (formatsOf format).all (fun f => !(fetch f).isOk) then
        st.errors ++ [⟨item.id, String.intercalate "; "
          ((formatsOf format).filterMap (fun f => formatErrorMsg f (fetch f)))⟩]
       else st.errors) ∧
    (downloadItem format verifyFiles fileExists fetch dlDir item st).2.progress.skipped =
      st.progress.skipped ∧
    ((downloadItem "both" false fileExists bothScenarioFetch dlDir item st).1 = true ∧
     (downloadItem "both" false fileExists bothScenarioFetch dlDir
        item st).2.progress.downloaded = st.progress.downloaded + 1 ∧
     (downloadItem "both" false fileExists bothScenarioFetch dlDir
        item st).2.errors = st.errors ∧
     downloadFormats bothScenarioFetch (formatsOf "both") =
       (1, ["WAV not available (HTTP 403)"])) := by
  have hB : downloadFormats bothScenarioFetch (formatsOf "both") =
      (1, ["WAV not available (HTTP 403)"]) := by decide
  have hscen : downloadItem "both" false fileExists bothScenarioFetch dlDir item st =
      (true, { st with progress :=
        { st.progress with downloaded := st.progress.downloaded + 1 } }) := by
    simp [downloadItem, hurl, hB]
  cases hc : (formatsOf format).any (fun f => (fetch f).isOk) with
  | true =>
    have hex : ∃ x ∈ formatsOf format, (fetch x).isOk = true := by simpa using hc
    obtain ⟨x, hx, hxo⟩ := hex
    have hpos : 0 < ((formatsOf format).filter (fun f => (fetch f).isOk)).length := by
      have hm : x ∈ (formatsOf format).filter (fun f => (fetch f).isOk) :=
        List.mem_filter.mpr ⟨hx, hxo⟩
      exact List.length_pos.mpr (List.ne_nil_of_mem hm)
    have hallf : (formatsOf format).all (fun f => !(fetch f).isOk) = false := by
      cases h : (formatsOf format).all (fun f => !(fetch f).isOk) with
      | false => rfl
      | true =>
        have h2 := List.all_eq_true.mp h x hx
        rw [hxo] at h2
        exact absurd h2 (by simp)
    have hval : downloadItem format verifyFiles fileExists fetch dlDir item st =
        (true, { st with progress :=
          { st.progress with downloaded := st.progress.downloaded + 1 } }) := by
      simp [downloadItem, hurl, hnv, downloadFormats_eq, hpos]
    refine ⟨by rw [hval]; simp, by rw [hval]; simp [hallf], by rw [hval]; simp [hallf],
      by rw [hval], ⟨by rw [hscen], by rw [hscen], by rw [hscen], hB⟩⟩
  | false =>
    have hfa : ∀ x ∈ formatsOf format, (fetch x).isOk = false := by simpa using hc
    have hzero : ((formatsOf format).filter (fun f => (fetch f).isOk)).length = 0 := by
      simp only [List.length_eq_zero, List.filter_eq_nil_iff]
      intro x hx
      simp [hfa x hx]
    have hallt : (formatsOf format).all (fun f => !(fetch f).isOk) = true := by
      rw [List.all_eq_true]
      intro x hx
      simp [hfa x hx]
    have hval : downloadItem format verifyFiles fileExists fetch dlDir item st =
        (false, { st with
          progress := { st.progress with failed := st.progress.failed + 1 },
          errors := st.errors ++ [⟨item.id, String.intercalate "; "
            ((formatsOf format).filterMap (fun f => formatErrorMsg f (fetch f)))⟩] }) := by
      simp [downloadItem, hurl, hnv, downloadFormats_eq, hzero]
    refine ⟨by rw [hval]; simp, by rw [hval]; simp [hallt], by rw [hval]; simp [hallt],
      by rw [hval], ⟨by rw [hscen], by rw [hscen], by rw [hscen], hB⟩⟩

/-- Closed witness for C5: with format "both", a 403 on wav and a
successful mp3, the item is counted downloaded. -/
theorem format_success_accounting_witness :
    (downloadItem "both" false (fun _ => false) bothScenarioFetch "dl"
      itemU {}).1 = true := by
  exact ((format_success_accounting "mp3" false (fun _ => false)
    (fun _ => FetchResult.ok) "dl" itemU {} (by decide) (by decide)).2.2.2.2).1

/-- C7: with `verifyFiles = true` and every target file already on disk,
`downloadItem` increments only the `skipped` counter and its behaviour is
independent of the network oracle (no request is issued). -/
theorem verify_skip_no_network (format : String) (fileExists : FsOracle)
    (fetch fetch2 : MediaOracle) (dlDir : String) (item : Item) (st : DMState)
    (hall : allFilesExist fileExists dlDir item (formatsOf format) = true) :
    downloadItem format true fileExists fetch dlDir item st =
      downloadItem format true fileExists fetch2 dlDir item st ∧
    (downloadItem format true fileExists fetch dlDir item st).2.progress.skipped =
      st.progress.skipped + 1 ∧
    (downloadItem format true fileExists fetch dlDir item st).2.progress.downloaded =
      st.progress.downloaded ∧
    (downloadItem format true fileExists fetch dlDir item st).2.progress.failed =
      st.progress.failed ∧
    (downloadItem format true fileExists fetch dlDir item st).2.errors =
      st.errors := by
  cases hu : truthyStr item.audio_url with
  | true => simp [downloadItem, hu, hall]
  | false => simp [downloadItem, hu]

/-- Closed witness for C7: a concrete item whose single target file
exists is skipped identically under two different network oracles. -/
theorem verify_skip_no_network_witness :
    (downloadItem "mp3" true (fun _ => true) (fun _ => FetchResult.ok) "dl"
      itemU {}).2.progress.skipped = ({} : DMState).progress.skipped + 1 := by
  exact (verify_skip_no_network "mp3" (fun _ => true) (fun _ => FetchResult.ok)
    (fun _ => FetchResult.transportErr "boom") "dl" itemU {} (by decide)).2.1

/-- C8: invoking the migration when no legacy flat file exists reports a
migrated count of 0, raises no error, and leaves the catalog untouched. -/
theorem migrate_absent_is_noop (db : List (String × Item)) :
    migrateJsonToDb none db = (0, db) := rfl

/-- C4 counterexample: a response whose `clips` field is a present but
empty array and whose `songs` field is non-empty yields the empty array,
not the non-empty one. -/
theorem shape_sniff_counterexample :
    selectClips { clips := some [], songs := some [itemA] } = [] ∧
    selectClips { clips := some [], songs := some [itemA] } ≠ [itemA] := by
  constructor
  · rfl
  · decide

/-- C4 amended: the lister uses the first candidate field — in the order
clips, songs, data, items — that is present, even when it holds an empty
array; only when every candidate field is absent does it fall back to the
empty list. -/
theorem shape_sniff_first_present (v : List Item)
    (s d it : Option (List Item)) :
    selectClips { clips := some v, songs := s, data := d, items := it } = v ∧
    selectClips { clips := none, songs := some v, data := d, items := it } = v ∧
    selectClips { clips := none, songs := none, data := some v, items := it } = v ∧
    selectClips { clips := none, songs := none, data := none, items := some v } = v ∧
    selectClips { clips := none, songs := none, data := none, items := none } = [] :=
  ⟨rfl, rfl, rfl, rfl, rfl⟩

/-- C9: every `downloadItem` call increments exactly one of the three
counters (downloaded, failed, skipped) by exactly one and decrements
none; hence processing a batch of `n` items raises the counter sum by
exactly `n`. -/
theorem counters_sum_invariant (format : String) (verifyFiles : Bool)
    (fileExists : FsOracle) (fetch : MediaOracle) (dlDir : String) :
    (∀ (item : Item) (st : DMState),
      ((downloadItem format verifyFiles fileExists fetch dlDir item st).2.progress.downloaded =
          st.progress.downloaded + 1 ∧
        (downloadItem format verifyFiles fileExists fetch dlDir item st).2.progress.failed =
          st.progress.failed ∧
        (downloadItem format verifyFiles fileExists fetch dlDir item st).2.progress.skipped =
          st.progress.skipped) ∨
      ((downloadItem format verifyFiles fileExists fetch dlDir item st).2.progress.downloaded =
          st.progress.downloaded ∧
        (downloadItem format verifyFiles fileExists fetch dlDir item st).2.progress.failed =
          st.progress.failed + 1 ∧
        (downloadItem format verifyFiles fileExists fetch dlDir item st).2.progress.skipped =
          st.progress.skipped) ∨
      ((downloadItem format verifyFiles fileExists fetch dlDir item st).2.progress.downloaded =
          st.progress.downloaded ∧
        (downloadItem format verifyFiles fileExists fetch dlDir item st).2.progress.failed =
          st.progress.failed ∧
        (downloadItem format verifyFiles fileExists fetch dlDir item st).2.progress.skipped =
          st.progress.skipped + 1)) ∧
    (∀ (items : List Item) (st : DMState),
      sumCounters (processBatch format verifyFiles fileExists fetch dlDir items st) =
        sumCounters st + items.length) := by
  have hstep : ∀ (item : Item) (st : DMState),
      ((downloadItem format verifyFiles fileExists fetch dlDir item st).2.progress.downloaded =
          st.progress.downloaded + 1 ∧
        (downloadItem format verifyFiles fileExists fetch dlDir item st).2.progress.failed =
          st.progress.failed ∧
        (downloadItem format verifyFiles fileExists fetch dlDir item st).2.progress.skipped =
          st.progress.skipped) ∨
      ((downloadItem format verifyFiles fileExists fetch dlDir item st).2.progress.downloaded =
          st.progress.downloaded ∧
        (downloadItem format verifyFiles fileExists fetch dlDir item st).2.progress.failed =
          st.progress.failed + 1 ∧
        (downloadItem format verifyFiles fileExists fetch dlDir item st).2.progress.skipped =
          st.progress.skipped) ∨
      ((downloadItem format verifyFiles fileExists fetch dlDir item st).2.progress.downloaded =
          st.progress.downloaded ∧
        (downloadItem format verifyFiles fileExists fetch dlDir item st).2.progress.failed =
          st.progress.failed ∧
        (downloadItem format verifyFiles fileExists fetch dlDir item st).2.progress.skipped =
          st.progress.skipped + 1) := by
    intro item st
    cases hu : truthyStr item.audio_url with
    | false =>
      right; right
      simp [downloadItem, hu]
    | true =>
      cases hv : verifyFiles && allFilesExist fileExists dlDir item (formatsOf format) with
      | true =>
        right; right
        simp [downloadItem, hu, hv]
      | false =>
        by_cases hp : 0 < (downloadFormats fetch (formatsOf format)).1
        · left
          simp [downloadItem, hu, hv, hp]
        · right; left
          simp [downloadItem, hu, hv, hp]
  refine ⟨hstep, ?_⟩
  intro items
  induction items with
  | nil =>
    intro st
    simp [processBatch, sumCounters]
  | cons i is ih =>
    intro st
    have hsum : sumCounters (downloadItem format verifyFiles fileExists fetch dlDir i st).2 =
        sumCounters st + 1 := by
      rcases hstep i st with ⟨h1, h2, h3⟩ | ⟨h1, h2, h3⟩ | ⟨h1, h2, h3⟩ <;>
        simp only [sumCounters, h1, h2, h3] <;> omega
    have hrec := ih (downloadItem format verifyFiles fileExists fetch dlDir i st).2
    simp only [processBatch, List.foldl_cons] at hrec ⊢
    rw [hrec, hsum, List.length_cons]
    omega

/-- C10: a worker persists an item to the catalog and the in-memory
known-id set exactly when `downloadItem` returns true, which holds iff
the item has a truthy media URL and either the verification pre-check
found every target file or at least one requested format downloaded;
consequently a verification-skipped item is persisted, while an item with
no media URL is not and stays in the delta of subsequent runs. -/
theorem worker_persists_iff_success (format : String) (verifyFiles : Bool)
    (fileExists : FsOracle) (fetch : MediaOracle) (dlDir : String)
    (item : Item) (st : DMState) (db : List (String × Item))
    (known : List String) :
    ((downloadItem format verifyFiles fileExists fetch dlDir item st).1 = true ↔
      (truthyStr item.audio_url = true ∧
        ((verifyFiles && allFilesExist fileExists dlDir item (formatsOf format)) = true ∨
          0 < (downloadFormats fetch (formatsOf format)).1))) ∧
    (workerStep format verifyFiles fileExists fetch dlDir true item (st, db, known) =
      ((downloadItem format verifyFiles fileExists fetch dlDir item st).2,
       if (downloadItem format verifyFiles fileExists fetch dlDir item st).1 then
         dbInsert db item else db,
       if (downloadItem format verifyFiles fileExists fetch dlDir item st).1 then
         known ++ [item.id] else known)) ∧
    (truthyStr item.audio_url = true → verifyFiles = true →
      allFilesExist fileExists dlDir item (formatsOf format) = true →
      item.id ∈ dbIds
        (workerStep format verifyFiles fileExists fetch dlDir true item
          (st, db, known)).2.1) ∧
    (truthyStr item.audio_url = false →
      (workerStep format verifyFiles fileExists fetch dlDir true item
        (st, db, known)).2.1 = db ∧
      (∀ R : List Item, item ∈ R → (dbIds db).contains item.id = false →
        item ∈ computeDelta
          (dbIds (workerStep format verifyFiles fileExists fetch dlDir true item
            (st, db, known)).2.1) R none)) := by
  have hiff : (downloadItem format verifyFiles fileExists fetch dlDir item st).1 = true ↔
      (truthyStr item.audio_url = true ∧
        ((verifyFiles && allFilesExist fileExists dlDir item (formatsOf format)) = true ∨
          0 < (downloadFormats fetch (formatsOf format)).1)) := by
    cases hu : truthyStr item.audio_url with
    | false => simp [downloadItem, hu]
    | true =>
      cases hv : verifyFiles && allFilesExist fileExists dlDir item (formatsOf format) with
      | true => simp [downloadItem, hu, hv]
      | false =>
        by_cases hp : 0 < (downloadFormats fetch (formatsOf format)).1
        · simp [downloadItem, hu, hv, hp]
        · simp [downloadItem, hu, hv, hp]
  have hws : workerStep format verifyFiles fileExists fetch dlDir true item (st, db, known) =
      ((downloadItem format verifyFiles fileExists fetch dlDir item st).2,
       if (downloadItem format verifyFiles fileExists fetch dlDir item st).1 then
         dbInsert db item else db,
       if (downloadItem format verifyFiles fileExists fetch dlDir item st).1 then
         known ++ [item.id] else known) := by
    cases hr : (downloadItem format verifyFiles fileExists fetch dlDir item st).1 with
    | true => simp [workerStep, hr]
    | false => simp [workerStep, hr]
  refine ⟨hiff, hws, ?_, ?_⟩
  · intro hu hvf hall
    have hsucc : (downloadItem format verifyFiles fileExists fetch dlDir item st).1 = true :=
      hiff.mpr ⟨hu, Or.inl (by rw [hvf, hall]; rfl)⟩
    rw [hws]
    simp [hsucc, dbIds, dbInsert]
  · intro hu
    have hsucc : (downloadItem format verifyFiles fileExists fetch dlDir item st).1 = false := by
      cases hr : (downloadItem format verifyFiles fileExists fetch dlDir item st).1 with
      | false => rfl
      | true => exact absurd (hiff.mp hr).1 (by rw [hu]; simp)
    have hdb : (workerStep format verifyFiles fileExists fetch dlDir true item
        (st, db, known)).2.1 = db := by
      rw [hws]
      simp [hsucc]
    refine ⟨hdb, ?_⟩
    intro R hR hcon
    rw [hdb]
    simp only [computeDelta]
    refine List.mem_filter.mpr ⟨hR, ?_⟩
    show (!((dbIds db).contains item.id)) = true
    rw [hcon]
    rfl

/-- Closed witness for C10: a verification-skipped item is persisted to
the catalog. -/
theorem worker_persists_iff_success_witness :
    itemU.id ∈ dbIds
      (workerStep "mp3" true (fun _ => true) (fun _ => FetchResult.ok) "dl"
        true itemU ({}, [], [])).2.1 := by
  exact (worker_persists_iff_success "mp3" true (fun _ => true)
    (fun _ => FetchResult.ok) "dl" itemU {} [] []).2.2.1 (by decide) rfl (by decide)

end SunoArchive
